import Mathlib

/-!
Verification development for the planetary-hours core.

The repository contains two revisions of the core:
* a coarse revision (src/frontend/app/index.tsx and src/unnamed/part_001)
  whose sun-time engine clamps the arccosine argument and whose resolver
  approximates the night length as 24 h minus the day length, and
* a precise revision (src/unnamed/part_000) with the NOAA sun-time engine
  and a resolver that queries the engine for the adjacent calendar day.

Time is modelled as rational milliseconds on the local-time axis (the
UTC offset of the environment is absorbed into the axis, matching the
fact that the code reads instants and offsets from the ambient Date
environment).  A calendar day is the integer index of a 24-hour slot on
that axis; day 0 starts at the epoch, and following the JS Date epoch
(1970-01-01, a Thursday) the day-of-week of day d is (d + 4) mod 7.

The Solar Position Engine is passed to the resolvers as a function from
a calendar day to the (sunrise, sunset) pair of absolute instants it
returns for that day, mirroring the calls calculateSunTimes(today),
calculateSunTimes(tomorrow) and calculateSunTimes(yesterday) in the
source.  Rational division by zero is 0 in Lean; all theorems about the
resolvers therefore carry explicit engine-regularity hypotheses that
rule the degenerate cases out.
-/

namespace PlanetaryHours

/-- Milliseconds per calendar day, as in the source constant 24*60*60*1000. -/
def msPerDay : ℚ := 24 * 60 * 60 * 1000

/-- Calendar day index of an instant (floor of days since the local epoch). -/
def dayNumber (t : ℚ) : ℤ := ⌊t / msPerDay⌋

/-- Day of week as JS Date.getDay of day number d: 0 = Sunday.
The epoch day (1970-01-01) is a Thursday, hence the +4. -/
def jsGetDay (d : ℤ) : ℤ := (d + 4) % 7

/-- The seven planetary bodies (keys of the source PLANETS table). -/
inductive Planet : Type
  | saturn
  | jupiter
  | mars
  | sun
  | venus
  | mercury
  | moon
deriving DecidableEq, BEq, Repr

/-- The fixed Chaldean order, source PLANETARY_SEQUENCE / ORDINE_PLANETE. -/
def PLANETARY_SEQUENCE : List Planet :=
  [Planet.saturn, Planet.jupiter, Planet.mars, Planet.sun,
   Planet.venus, Planet.mercury, Planet.moon]

/-- Ruler of the first hour of each day of week, source DAY_RULERS
(0: sun, 1: moon, 2: mars, 3: mercury, 4: jupiter, 5: venus, 6: saturn). -/
def DAY_RULERS (d : ℤ) : Planet :=
  if d = 0 then Planet.sun
  else if d = 1 then Planet.moon
  else if d = 2 then Planet.mars
  else if d = 3 then Planet.mercury
  else if d = 4 then Planet.jupiter
  else if d = 5 then Planet.venus
  else Planet.saturn

/-- The PLANET_ZI table of the precise revision, identical to DAY_RULERS. -/
def PLANET_ZI : ℤ → Planet := DAY_RULERS

/-- Position of a body in the Chaldean sequence. -/
def planetIndex : Planet → ℕ
  | Planet.saturn => 0
  | Planet.jupiter => 1
  | Planet.mars => 2
  | Planet.sun => 3
  | Planet.venus => 4
  | Planet.mercury => 5
  | Planet.moon => 6

/-- Array indexing ORDINE_PLANETE[i] into the Chaldean sequence.  The
source only ever indexes with a value reduced mod 7; the default is
unreachable under the hypotheses of the theorems below. -/
def seqAt (i : ℕ) : Planet := PLANETARY_SEQUENCE.getD i Planet.saturn

/-- Result record of the precise resolver (src/unnamed/part_000). -/
structure PlanetaryHourResult : Type where
  currentPlanet : Planet
  nextPlanet : Planet
  hourNumber : ℤ
  isDay : Bool
  nextHourTime : ℚ
  timeUntilNext : ℚ
  sunrise : ℚ
  sunset : ℚ
  hourDuration : ℚ
deriving DecidableEq, Repr

namespace Precise

/-- Shared tail of calculatePlanetaryHour in src/unnamed/part_000: from the
segment data (durata, idx, prox, zi_ast, este_zi) it computes startIdx,
offsetNoapte, idx_final and assembles the result record.  JS remainder on
the nonnegative operands that occur is Int.tmod. -/
def assemble (rasarit apus durata : ℚ) (idx : ℤ) (prox : ℚ)
    (zi_ast : ℤ) (este_zi : Bool) (now : ℚ) : PlanetaryHourResult :=
  let startIdx : ℤ := (PLANETARY_SEQUENCE.indexOf (PLANET_ZI zi_ast) : ℤ)
  let offsetNoapte : ℤ := if este_zi then 0 else 12
  let idx_final := (startIdx + idx + offsetNoapte).tmod 7
  { currentPlanet := seqAt idx_final.toNat
    nextPlanet := seqAt ((idx_final + 1).tmod 7).toNat
    hourNumber := idx + 1
    isDay := este_zi
    nextHourTime := prox
    timeUntilNext := prox - now
    sunrise := rasarit
    sunset := apus
    hourDuration := durata }

/-- Day branch of the precise resolver (now between sunrise and sunset). -/
def daySegmentCalc (engine : ℤ → ℚ × ℚ) (d : ℤ) (now : ℚ) : PlanetaryHourResult :=
  let rasarit := (engine d).1
  let apus := (engine d).2
  let durata := (apus - rasarit) / 12
  let idx := min ⌊(now - rasarit) / durata⌋ 11
  assemble rasarit apus durata idx (rasarit + durata * (idx + 1)) (jsGetDay d) true now

/-- After-sunset branch: the night segment runs from the sunset of day d to
the sunrise of day d+1, obtained by a second engine call for d+1. -/
def nightAfterCalc (engine : ℤ → ℚ × ℚ) (d : ℤ) (now : ℚ) : PlanetaryHourResult :=
  let rasarit := (engine d).1
  let apus := (engine d).2
  let srTomorrow := (engine (d + 1)).1
  let durata := (srTomorrow - apus) / 12
  let idx := min ⌊(now - apus) / durata⌋ 11
  assemble rasarit apus durata idx (apus + durata * (idx + 1)) (jsGetDay d) false now

/-- Pre-sunrise branch: the night segment began at the sunset of day d-1,
obtained by an engine call for yesterday, ruled by the weekday of d-1. -/
def nightBeforeCalc (engine : ℤ → ℚ × ℚ) (d : ℤ) (now : ℚ) : PlanetaryHourResult :=
  let rasarit := (engine d).1
  let apus := (engine d).2
  let ssYesterday := (engine (d - 1)).2
  let durata := (rasarit - ssYesterday) / 12
  let idx := min ⌊(now - ssYesterday) / durata⌋ 11
  assemble rasarit apus durata idx (ssYesterday + durata * (idx + 1)) (jsGetDay (d - 1)) false now

/-- calculatePlanetaryHour of src/unnamed/part_000, with the Solar Position
Engine abstracted as the function from a calendar day to its (sunrise,
sunset) instants.  Branch conditions are exactly those of the source:
day if rasarit <= now < apus, else night after sunset if now >= apus,
else night before sunrise. -/
def calculatePlanetaryHour (engine : ℤ → ℚ × ℚ) (now : ℚ) : PlanetaryHourResult :=
  let d := dayNumber now
  if (engine d).1 ≤ now ∧ now < (engine d).2 then daySegmentCalc engine d now
  else if (engine d).2 ≤ now then nightAfterCalc engine d now
  else nightBeforeCalc engine d now

end Precise

namespace Coarse

/-- Result record of the coarse resolver (src/frontend/app/index.tsx),
which has no hourDuration field. -/
structure Result : Type where
  currentPlanet : Planet
  nextPlanet : Planet
  hourNumber : ℤ
  isDay : Bool
  nextHourTime : ℚ
  timeUntilNext : ℚ
  sunrise : ℚ
  sunset : ℚ
deriving DecidableEq, Repr

/-- calculatePlanetaryHour of src/frontend/app/index.tsx (same code in
src/unnamed/part_001), engine abstracted as for the precise revision.
The night hour length is (24 h - day length of the current day) / 12,
recomputed from the sun times of the day of the queried instant; the
night start before sunrise is the sunset returned by an engine call for
yesterday.  hourIndex is computed from the unclamped hourNumber, then
hourNumber and nextHourTime are clamped, exactly as in the source. -/
def calculatePlanetaryHour (engine : ℤ → ℚ × ℚ) (now : ℚ) : Result :=
  let d := dayNumber now
  let dayOfWeek := jsGetDay d
  let sunrise := (engine d).1
  let sunset := (engine d).2
  let isDay : Bool := decide (sunrise ≤ now ∧ now < sunset)
  let dayLengthMs := sunset - sunrise
  let nightLengthMs := 24 * 60 * 60 * 1000 - dayLengthMs
  let dayHourLength := dayLengthMs / 12
  let nightHourLength := nightLengthMs / 12
  let startIndex : ℤ := (PLANETARY_SEQUENCE.indexOf (DAY_RULERS dayOfWeek) : ℤ)
  if isDay then
    let hourNumber := ⌊(now - sunrise) / dayHourLength⌋ + 1
    let hourIndex := (startIndex + hourNumber - 1).tmod 7
    let nextHourTime := sunrise + (hourNumber : ℚ) * dayHourLength
    let hn := if 12 < hourNumber then 12 else hourNumber
    let nht := if 12 < hourNumber then sunset else nextHourTime
    { currentPlanet := seqAt hourIndex.toNat
      nextPlanet := seqAt ((hourIndex + 1).tmod 7).toNat
      hourNumber := hn
      isDay := true
      nextHourTime := nht
      timeUntilNext := nht - now
      sunrise := sunrise
      sunset := sunset }
  else
    let p : ℚ × ℤ :=
      if now < sunrise then ((engine (d - 1)).2, (dayOfWeek + 6).tmod 7)
      else (sunset, dayOfWeek)
    let nightStart := p.1
    let effectiveDayOfWeek := p.2
    let nightStartIndex : ℤ := (PLANETARY_SEQUENCE.indexOf (DAY_RULERS effectiveDayOfWeek) : ℤ)
    let hourNumber := ⌊(now - nightStart) / nightHourLength⌋ + 1
    let hourIndex := (nightStartIndex + 12 + hourNumber - 1).tmod 7
    let nextHourTime := nightStart + (hourNumber : ℚ) * nightHourLength
    let hn := if 12 < hourNumber then 12 else hourNumber
    let nht := if 12 < hourNumber then sunrise else nextHourTime
    { currentPlanet := seqAt hourIndex.toNat
      nextPlanet := seqAt ((hourIndex + 1).tmod 7).toNat
      hourNumber := hn
      isDay := false
      nextHourTime := nht
      timeUntilNext := nht - now
      sunrise := sunrise
      sunset := sunset }

end Coarse

/-! Solar Position Engine fragments over the reals.

JS Math.acos returns NaN (it does not throw) when its argument lies
outside [-1, 1]; a NaN result is modelled as Option.none. -/

open Classical in
/-- JS Math.acos: arccos on [-1, 1], NaN (none) outside. -/
noncomputable def acosJS (x : ℝ) : Option ℝ :=
  if -1 ≤ x ∧ x ≤ 1 then some (Real.arccos x) else none

/-- Degrees to radians, source toRadians. -/
noncomputable def toRadians (degrees : ℝ) : ℝ := degrees * Real.pi / 180

/-- Radians to degrees, source toDegrees. -/
noncomputable def toDegrees (radians : ℝ) : ℝ := radians * 180 / Real.pi

namespace Precise

/-- getHourAngleSunrise of src/unnamed/part_000 (NOAA revision): the
arccosine argument is passed to Math.acos with no clamping, so the
result is NaN (none) whenever the argument leaves [-1, 1]. -/
noncomputable def getHourAngleSunrise (lat solarDec zenith : ℝ) : Option ℝ :=
  let latRad := toRadians lat
  let sdRad := toRadians solarDec
  let zenithRad := toRadians zenith
  (acosJS (Real.cos zenithRad / (Real.cos latRad * Real.cos sdRad)
      - Real.tan latRad * Real.tan sdRad)).map toDegrees

end Precise

namespace Coarse

/-- calculateSunTimes of src/frontend/app/index.tsx, up to the conversion
of the local fractional hours into Date objects: the result is the pair
(sunriseLocal, sunsetLocal) of local hours.  The arccosine argument is
clamped to [-1, 1] before Math.acos is evaluated. -/
noncomputable def calculateSunTimes (dayOfYear : ℤ) (latitude longitude tzOffsetHours : ℝ) :
    Option (ℝ × ℝ) :=
  let declination := -23.45 * Real.cos ((360 / 365) * ((dayOfYear : ℝ) + 10) * Real.pi / 180)
  let latRad := latitude * Real.pi / 180
  let decRad := declination * Real.pi / 180
  let cosHourAngle := max (-1) (min 1 (-(Real.tan latRad) * Real.tan decRad))
  (acosJS cosHourAngle).map (fun a =>
    let hourAngle := a * 180 / Real.pi
    let solarNoon := 12 - longitude / 15
    (solarNoon - hourAngle / 15 + tzOffsetHours, solarNoon + hourAngle / 15 + tzOffsetHours))

end Coarse

/-! Concrete engines used by the witnesses and counterexamples. -/

/-- Engine with sunrise 06:00 and sunset 18:00 local time every day (the
equal 12-hour day/night engine the spec suggests for tests). -/
def engine618 (d : ℤ) : ℚ × ℚ :=
  ((d : ℚ) * msPerDay + 21600000, (d : ℚ) * msPerDay + 64800000)

/-- Engine with sunrise 06:00 every day, sunset 18:00 except on day 4,
where sunset is 20:00 (adjacent days with different day lengths). -/
def engineVarying (d : ℤ) : ℚ × ℚ :=
  if d = 4 then ((d : ℚ) * msPerDay + 21600000, (d : ℚ) * msPerDay + 72000000)
  else ((d : ℚ) * msPerDay + 21600000, (d : ℚ) * msPerDay + 64800000)

/-- Regularity of an engine: each day, sunrise and sunset lie inside the
day in order.  Together with dayNumber arithmetic this also yields that
the sunset of a day precedes the sunrise of the next day. -/
def EngineRegular (E : ℤ → ℚ × ℚ) : Prop :=
  ∀ d : ℤ, (d : ℚ) * msPerDay < (E d).1 ∧ (E d).1 < (E d).2 ∧
    (E d).2 < ((d : ℚ) + 1) * msPerDay

/-- Weekday whose ruler governs the active segment of the queried instant:
the current day for the day segment and the after-sunset night segment,
the previous day before sunrise.  The branch conditions replicate those
of the precise resolver. -/
def governingWeekday (E : ℤ → ℚ × ℚ) (now : ℚ) : ℤ :=
  let d := dayNumber now
  if (E d).1 ≤ now ∧ now < (E d).2 then jsGetDay d
  else if (E d).2 ≤ now then jsGetDay d
  else jsGetDay (d - 1)

/-- Unequal-hour length of a day segment of the precise resolver. -/
def dayDur (E : ℤ → ℚ × ℚ) (d : ℤ) : ℚ := ((E d).2 - (E d).1) / 12

/-- Unequal-hour length of the night segment from the sunset of day e to
the sunrise of day e+1, as computed by the precise resolver. -/
def nightDur (E : ℤ → ℚ × ℚ) (e : ℤ) : ℚ := ((E (e + 1)).1 - (E e).2) / 12

/-- Zero-based hour index of the precise resolver inside the day segment. -/
def dayIdx (E : ℤ → ℚ × ℚ) (d : ℤ) (now : ℚ) : ℤ :=
  min ⌊(now - (E d).1) / dayDur E d⌋ 11

/-- Zero-based hour index of the precise resolver inside the night segment
that starts at the sunset of day e. -/
def nightIdx (E : ℤ → ℚ × ℚ) (e : ℤ) (now : ℚ) : ℤ :=
  min ⌊(now - (E e).2) / nightDur E e⌋ 11

/-- Unequal-hour length computed by the pre-sunrise branch of the precise
resolver for the current day d (sunrise of d minus sunset of d-1, by 12). -/
def nbDur (E : ℤ → ℚ × ℚ) (d : ℤ) : ℚ := ((E d).1 - (E (d - 1)).2) / 12

/-- Zero-based hour index computed by the pre-sunrise branch for day d. -/
def nbIdx (E : ℤ → ℚ × ℚ) (d : ℤ) (now : ℚ) : ℤ :=
  min ⌊(now - (E (d - 1)).2) / nbDur E d⌋ 11

/-- Length of the planetary hour immediately following the next transition
instant of the result at the queried instant: the same segment while the
current hour is not the 12th, the first hour of the next segment when it
is.  This formalises the phrase (inside the immediately following
planetary hour) of the continuity property. -/
def followingHourLength (E : ℤ → ℚ × ℚ) (now : ℚ) : ℚ :=
  let d := dayNumber now
  if (E d).1 ≤ now ∧ now < (E d).2 then
    if dayIdx E d now ≤ 10 then dayDur E d else nightDur E d
  else if (E d).2 ≤ now then
    if nightIdx E d now ≤ 10 then nightDur E d else dayDur E (d + 1)
  else
    if nightIdx E (d - 1) now ≤ 10 then nightDur E (d - 1) else dayDur E d

/-! Helper lemmas. -/

theorem msPerDay_pos : (0 : ℚ) < msPerDay := by norm_num [msPerDay]

theorem dayNumber_le (t : ℚ) : (dayNumber t : ℚ) * msPerDay ≤ t := by
  have h := mul_le_mul_of_nonneg_right (Int.floor_le (t / msPerDay)) msPerDay_pos.le
  rwa [div_mul_cancel₀ t msPerDay_pos.ne'] at h

theorem lt_dayNumber_succ (t : ℚ) : t < ((dayNumber t : ℚ) + 1) * msPerDay := by
  have h := mul_lt_mul_of_pos_right (Int.lt_floor_add_one (t / msPerDay)) msPerDay_pos
  rwa [div_mul_cancel₀ t msPerDay_pos.ne'] at h

theorem dayNumber_eq (t : ℚ) (d : ℤ) (h1 : (d : ℚ) * msPerDay ≤ t)
    (h2 : t < ((d : ℚ) + 1) * msPerDay) : dayNumber t = d := by
  have hm := msPerDay_pos
  rw [dayNumber, Int.floor_eq_iff]
  constructor
  · rw [le_div_iff₀ hm]; linarith
  · rw [div_lt_iff₀ hm]; linarith

theorem le_dayNumber (t : ℚ) (d : ℤ) (h : (d : ℚ) * msPerDay ≤ t) : d ≤ dayNumber t := by
  rw [dayNumber, Int.le_floor, le_div_iff₀ msPerDay_pos]; exact h

theorem dayNumber_le_of_lt (t : ℚ) (d : ℤ) (h : t < ((d : ℚ) + 1) * msPerDay) :
    dayNumber t ≤ d := by
  have : dayNumber t < d + 1 := by
    rw [dayNumber, Int.floor_lt, div_lt_iff₀ msPerDay_pos]; push_cast; linarith
  omega

theorem engineRegular_sunset_lt_next (E : ℤ → ℚ × ℚ) (hE : EngineRegular E) (d : ℤ) :
    (E d).2 < (E (d + 1)).1 := by
  have h1 := (hE d).2.2
  have h2 := (hE (d + 1)).1
  push_cast at h2
  linarith

theorem indexOf_eq_planetIndex (p : Planet) :
    PLANETARY_SEQUENCE.indexOf p = planetIndex p := by
  cases p <;> rfl

theorem planetIndex_le_six (p : Planet) : planetIndex p ≤ 6 := by
  cases p <;> simp [planetIndex]

theorem planetIndex_seqAt (n : ℕ) (h : n < 7) : planetIndex (seqAt n) = n := by
  interval_cases n <;> rfl

theorem tmod_seven_eq_emod (x : ℤ) (h : 0 ≤ x) : x.tmod 7 = x % 7 :=
  Int.tmod_eq_emod h (by norm_num)

theorem emod_seven_lt (x : ℤ) : x % 7 < 7 := Int.emod_lt_of_pos x (by norm_num)

theorem emod_seven_nonneg (x : ℤ) : 0 ≤ x % 7 := Int.emod_nonneg x (by norm_num)

theorem jsGetDay_nonneg (d : ℤ) : 0 ≤ jsGetDay d := emod_seven_nonneg _

theorem jsGetDay_lt (d : ℤ) : jsGetDay d < 7 := emod_seven_lt _

/-- Floor-grid step: an instant in the half-open cell number k+1 of a grid
with origin a and positive step has floor k+1. -/
theorem floor_grid (a t : ℚ) (δ : ℚ) (k : ℤ) (hδ : 0 < δ)
    (h1 : a + δ * ((k : ℚ) + 1) ≤ t) (h2 : t < a + δ * ((k : ℚ) + 2)) :
    ⌊(t - a) / δ⌋ = k + 1 := by
  rw [Int.floor_eq_iff]
  constructor
  · rw [le_div_iff₀ hδ]; push_cast; linarith
  · rw [div_lt_iff₀ hδ]; push_cast; linarith

theorem floor_nonneg_of (a t : ℚ) (δ : ℚ) (hδ : 0 < δ) (h : a ≤ t) :
    0 ≤ ⌊(t - a) / δ⌋ :=
  Int.floor_nonneg.2 (div_nonneg (by linarith) hδ.le)

/-! Region-reduction lemmas for the precise resolver. -/

theorem precise_eq_day (E : ℤ → ℚ × ℚ) (now : ℚ)
    (h1 : (E (dayNumber now)).1 ≤ now) (h2 : now < (E (dayNumber now)).2) :
    Precise.calculatePlanetaryHour E now = Precise.daySegmentCalc E (dayNumber now) now := by
  rw [Precise.calculatePlanetaryHour, if_pos ⟨h1, h2⟩]

theorem precise_eq_nightAfter (E : ℤ → ℚ × ℚ) (now : ℚ)
    (h1 : (E (dayNumber now)).2 ≤ now) :
    Precise.calculatePlanetaryHour E now = Precise.nightAfterCalc E (dayNumber now) now := by
  rw [Precise.calculatePlanetaryHour]
  rw [if_neg (by push_neg; intro _; linarith), if_pos h1]

theorem precise_eq_nightBefore (E : ℤ → ℚ × ℚ) (now : ℚ)
    (h1 : now < (E (dayNumber now)).1) (h2 : now < (E (dayNumber now)).2) :
    Precise.calculatePlanetaryHour E now = Precise.nightBeforeCalc E (dayNumber now) now := by
  rw [Precise.calculatePlanetaryHour]
  rw [if_neg (by push_neg; intro h; linarith), if_neg (by linarith)]

/-- During the night that runs from the sunset of day e to the sunrise of
day e+1, the precise resolver computes the same segment data whether the
instant falls before or after midnight: night start at the sunset of day
e, duration (sunrise of day e+1 minus sunset of day e)/12, ruler weekday
of day e.  Only the reported sunrise/sunset pair is that of the calendar
day of the instant. -/
theorem precise_night_unified (E : ℤ → ℚ × ℚ) (hE : EngineRegular E) (e : ℤ) (t : ℚ)
    (h1 : (E e).2 ≤ t) (h2 : t < (E (e + 1)).1) :
    Precise.calculatePlanetaryHour E t =
      Precise.assemble (E (dayNumber t)).1 (E (dayNumber t)).2 (nightDur E e)
        (nightIdx E e t) ((E e).2 + nightDur E e * (nightIdx E e t + 1))
        (jsGetDay e) false t := by
  have he := hE e
  have he1 := hE (e + 1)
  push_cast at he1
  have hde : e ≤ dayNumber t := le_dayNumber t e (by linarith [he.1, he.2.1])
  have hde1 : dayNumber t ≤ e + 1 := by
    apply dayNumber_le_of_lt
    push_cast
    linarith [he1.2.1, he1.2.2, he1.1]
  have hcase : dayNumber t = e ∨ dayNumber t = e + 1 := by omega
  rcases hcase with hc | hc
  · rw [precise_eq_nightAfter E t (by rw [hc]; exact h1)]
    rw [Precise.nightAfterCalc, hc]
    rfl
  · have hlt1 : t < (E (dayNumber t)).1 := by rw [hc]; exact h2
    have hlt2 : t < (E (dayNumber t)).2 := by
      have := he1.2.1
      rw [hc]; linarith [h2]
    rw [precise_eq_nightBefore E t hlt1 hlt2]
    rw [Precise.nightBeforeCalc, hc]
    have hsub : e + 1 - 1 = e := by omega
    rw [hsub]
    rfl

/-! Field lemmas for the assembled result of the precise resolver. -/

theorem assemble_hourNumber (r a du : ℚ) (i : ℤ) (p : ℚ) (z : ℤ) (b : Bool) (n : ℚ) :
    (Precise.assemble r a du i p z b n).hourNumber = i + 1 := rfl

theorem assemble_isDay (r a du : ℚ) (i : ℤ) (p : ℚ) (z : ℤ) (b : Bool) (n : ℚ) :
    (Precise.assemble r a du i p z b n).isDay = b := rfl

theorem assemble_nextHourTime (r a du : ℚ) (i : ℤ) (p : ℚ) (z : ℤ) (b : Bool) (n : ℚ) :
    (Precise.assemble r a du i p z b n).nextHourTime = p := rfl

theorem assemble_hourDuration (r a du : ℚ) (i : ℤ) (p : ℚ) (z : ℤ) (b : Bool) (n : ℚ) :
    (Precise.assemble r a du i p z b n).hourDuration = du := rfl

theorem planetIndex_inj (p q : Planet) (h : planetIndex p = planetIndex q) : p = q := by
  cases p <;> cases q <;> first | rfl | simp [planetIndex] at h

/-- Sequence position of the current body produced by the shared tail:
for a nonnegative hour index it is the spec formula
(startIndex + idx + nightOffset) mod 7. -/
theorem assemble_current_index (r a du : ℚ) (i : ℤ) (p : ℚ) (z : ℤ) (b : Bool) (n : ℚ)
    (hi : 0 ≤ i) :
    (planetIndex (Precise.assemble r a du i p z b n).currentPlanet : ℤ)
      = ((planetIndex (PLANET_ZI z) : ℤ) + i + (if b then 0 else 12)) % 7 := by
  have hoff : (0 : ℤ) ≤ if b then 0 else 12 := by cases b <;> norm_num
  have hX : 0 ≤ (PLANETARY_SEQUENCE.indexOf (PLANET_ZI z) : ℤ) + i + (if b then 0 else 12) := by
    have := Int.ofNat_nonneg (PLANETARY_SEQUENCE.indexOf (PLANET_ZI z))
    omega
  simp only [Precise.assemble]
  rw [tmod_seven_eq_emod _ hX]
  have hlt : ((((PLANETARY_SEQUENCE.indexOf (PLANET_ZI z) : ℤ) + i
      + (if b then 0 else 12)) % 7).toNat) < 7 := by
    have h1 := emod_seven_lt ((PLANETARY_SEQUENCE.indexOf (PLANET_ZI z) : ℤ) + i
      + (if b then 0 else 12))
    have h2 := emod_seven_nonneg ((PLANETARY_SEQUENCE.indexOf (PLANET_ZI z) : ℤ) + i
      + (if b then 0 else 12))
    omega
  rw [planetIndex_seqAt _ hlt]
  rw [Int.toNat_of_nonneg (emod_seven_nonneg _)]
  rw [indexOf_eq_planetIndex]

/-- Sequence position of the next body produced by the shared tail. -/
theorem assemble_next_index (r a du : ℚ) (i : ℤ) (p : ℚ) (z : ℤ) (b : Bool) (n : ℚ)
    (hi : 0 ≤ i) :
    (planetIndex (Precise.assemble r a du i p z b n).nextPlanet : ℤ)
      = ((planetIndex (PLANET_ZI z) : ℤ) + i + (if b then 0 else 12) + 1) % 7 := by
  have hoff : (0 : ℤ) ≤ if b then 0 else 12 := by cases b <;> norm_num
  have hX : 0 ≤ (PLANETARY_SEQUENCE.indexOf (PLANET_ZI z) : ℤ) + i + (if b then 0 else 12) := by
    have := Int.ofNat_nonneg (PLANETARY_SEQUENCE.indexOf (PLANET_ZI z))
    omega
  simp only [Precise.assemble]
  rw [tmod_seven_eq_emod _ hX]
  rw [tmod_seven_eq_emod _ (by have := emod_seven_nonneg ((PLANETARY_SEQUENCE.indexOf
    (PLANET_ZI z) : ℤ) + i + (if b then 0 else 12)); omega)]
  have hlt : ((((PLANETARY_SEQUENCE.indexOf (PLANET_ZI z) : ℤ) + i
      + (if b then 0 else 12)) % 7 + 1) % 7).toNat < 7 := by
    have h1 := emod_seven_lt (((PLANETARY_SEQUENCE.indexOf (PLANET_ZI z) : ℤ) + i
      + (if b then 0 else 12)) % 7 + 1)
    have h2 := emod_seven_nonneg (((PLANETARY_SEQUENCE.indexOf (PLANET_ZI z) : ℤ) + i
      + (if b then 0 else 12)) % 7 + 1)
    omega
  rw [planetIndex_seqAt _ hlt]
  rw [Int.toNat_of_nonneg (emod_seven_nonneg _)]
  simp only [indexOf_eq_planetIndex]
  rw [Int.emod_add_emod]

/-! Positivity and range facts for segment data. -/

theorem dayDur_pos (E : ℤ → ℚ × ℚ) (d : ℤ) (h : (E d).1 < (E d).2) : 0 < dayDur E d :=
  div_pos (by linarith) (by norm_num)

theorem nightDur_pos (E : ℤ → ℚ × ℚ) (hE : EngineRegular E) (e : ℤ) : 0 < nightDur E e :=
  div_pos (by have := engineRegular_sunset_lt_next E hE e; linarith) (by norm_num)

theorem dayIdx_nonneg (E : ℤ → ℚ × ℚ) (d : ℤ) (now : ℚ)
    (h1 : (E d).1 ≤ now) (h2 : (E d).1 < (E d).2) : 0 ≤ dayIdx E d now :=
  le_min (floor_nonneg_of _ _ _ (dayDur_pos E d h2) h1) (by norm_num)

theorem dayIdx_le (E : ℤ → ℚ × ℚ) (d : ℤ) (now : ℚ) : dayIdx E d now ≤ 11 :=
  min_le_right _ _

theorem nightIdx_nonneg (E : ℤ → ℚ × ℚ) (hE : EngineRegular E) (e : ℤ) (t : ℚ)
    (h : (E e).2 ≤ t) : 0 ≤ nightIdx E e t :=
  le_min (floor_nonneg_of _ _ _ (nightDur_pos E hE e) h) (by norm_num)

theorem nightIdx_le (E : ℤ → ℚ × ℚ) (e : ℤ) (t : ℚ) : nightIdx E e t ≤ 11 :=
  min_le_right _ _

/-! Reduction of governingWeekday in each region. -/

theorem governingWeekday_day (E : ℤ → ℚ × ℚ) (now : ℚ)
    (h1 : (E (dayNumber now)).1 ≤ now) (h2 : now < (E (dayNumber now)).2) :
    governingWeekday E now = jsGetDay (dayNumber now) := by
  rw [governingWeekday, if_pos ⟨h1, h2⟩]

theorem governingWeekday_after (E : ℤ → ℚ × ℚ) (now : ℚ)
    (h : (E (dayNumber now)).2 ≤ now) :
    governingWeekday E now = jsGetDay (dayNumber now) := by
  rw [governingWeekday]
  rw [if_neg (by push_neg; intro _; linarith), if_pos h]

theorem governingWeekday_before (E : ℤ → ℚ × ℚ) (now : ℚ)
    (h1 : now < (E (dayNumber now)).1) (h2 : now < (E (dayNumber now)).2) :
    governingWeekday E now = jsGetDay (dayNumber now - 1) := by
  rw [governingWeekday]
  rw [if_neg (by push_neg; intro h; linarith), if_neg (by linarith)]

/-! Branch functions written as applications of the shared tail. -/

theorem daySegment_eq_assemble (E : ℤ → ℚ × ℚ) (d : ℤ) (now : ℚ) :
    Precise.daySegmentCalc E d now
      = Precise.assemble (E d).1 (E d).2 (dayDur E d) (dayIdx E d now)
          ((E d).1 + dayDur E d * ((dayIdx E d now : ℚ) + 1)) (jsGetDay d) true now := rfl

theorem nightAfter_eq_assemble (E : ℤ → ℚ × ℚ) (d : ℤ) (now : ℚ) :
    Precise.nightAfterCalc E d now
      = Precise.assemble (E d).1 (E d).2 (nightDur E d) (nightIdx E d now)
          ((E d).2 + nightDur E d * ((nightIdx E d now : ℚ) + 1)) (jsGetDay d) false now := rfl

theorem nightBefore_eq_assemble (E : ℤ → ℚ × ℚ) (d : ℤ) (now : ℚ) :
    Precise.nightBeforeCalc E d now
      = Precise.assemble (E d).1 (E d).2 (nbDur E d) (nbIdx E d now)
          ((E (d - 1)).2 + nbDur E d * ((nbIdx E d now : ℚ) + 1)) (jsGetDay (d - 1)) false now := rfl

theorem nbDur_pos (E : ℤ → ℚ × ℚ) (hE : EngineRegular E) (d : ℤ) : 0 < nbDur E d := by
  have h1 := (hE (d - 1)).2.2
  have h2 := (hE d).1
  push_cast at h1
  apply div_pos _ (by norm_num)
  linarith

theorem sunsetYesterday_le (E : ℤ → ℚ × ℚ) (hE : EngineRegular E) (d : ℤ) (now : ℚ)
    (h : (d : ℚ) * msPerDay ≤ now) : (E (d - 1)).2 ≤ now := by
  have h1 := (hE (d - 1)).2.2
  push_cast at h1
  linarith

theorem nbIdx_nonneg (E : ℤ → ℚ × ℚ) (hE : EngineRegular E) (d : ℤ) (now : ℚ)
    (h : (d : ℚ) * msPerDay ≤ now) : 0 ≤ nbIdx E d now :=
  le_min (floor_nonneg_of _ _ _ (nbDur_pos E hE d) (sunsetYesterday_le E hE d now h))
    (by norm_num)

theorem nbIdx_le (E : ℤ → ℚ × ℚ) (d : ℤ) (now : ℚ) : nbIdx E d now ≤ 11 :=
  min_le_right _ _

/-- The regularity facts for the two concrete engines. -/
theorem engine618_regular : EngineRegular engine618 := by
  intro d
  refine ⟨?_, ?_, ?_⟩ <;> simp only [engine618, msPerDay] <;> nlinarith [sq_nonneg (d : ℚ)]

theorem engineVarying_regular : EngineRegular engineVarying := by
  intro d
  by_cases hd : d = 4 <;>
    · refine ⟨?_, ?_, ?_⟩ <;>
        simp only [engineVarying, hd, msPerDay, if_pos, if_neg, reduceIte] <;>
        nlinarith [sq_nonneg (d : ℚ)]

theorem assemble_next_eq_succ (r a du : ℚ) (i : ℤ) (p : ℚ) (z : ℤ) (b : Bool) (n : ℚ)
    (hi : 0 ≤ i) :
    (Precise.assemble r a du i p z b n).nextPlanet
      = seqAt ((planetIndex (Precise.assemble r a du i p z b n).currentPlanet + 1) % 7) := by
  apply planetIndex_inj
  have hc := assemble_current_index r a du i p z b n hi
  have hn := assemble_next_index r a du i p z b n hi
  rw [planetIndex_seqAt _ (Nat.mod_lt _ (by norm_num))]
  omega

/-- C1.  At or after the sunset of the current day, the precise resolver
takes the night segment from the sunset of the current day to the sunrise
of the next day, obtained from a second engine call for tomorrow: the
per-hour length is (tomorrow sunrise - today sunset)/12 and the next
transition lies strictly after the sunset and no later than the sunrise
of tomorrow. -/
theorem night_after_sunset_spans_to_tomorrow_sunrise (E : ℤ → ℚ × ℚ) (now : ℚ)
    (hE : EngineRegular E) (h : (E (dayNumber now)).2 ≤ now) :
    (Precise.calculatePlanetaryHour E now).hourDuration
        = ((E (dayNumber now + 1)).1 - (E (dayNumber now)).2) / 12 ∧
      (E (dayNumber now)).2 < (Precise.calculatePlanetaryHour E now).nextHourTime ∧
      (Precise.calculatePlanetaryHour E now).nextHourTime ≤ (E (dayNumber now + 1)).1 := by
  rw [precise_eq_nightAfter E now h, nightAfter_eq_assemble]
  set d := dayNumber now with hd
  have hdur : 0 < nightDur E d := nightDur_pos E hE d
  have hk0 : 0 ≤ nightIdx E d now := nightIdx_nonneg E hE d now h
  have hk11 : nightIdx E d now ≤ 11 := nightIdx_le E d now
  have hcast0 : (0 : ℚ) ≤ (nightIdx E d now : ℚ) := by exact_mod_cast hk0
  have hcast11 : (nightIdx E d now : ℚ) ≤ 11 := by exact_mod_cast hk11
  have hmul : nightDur E d * 12 = (E (d + 1)).1 - (E d).2 := by
    rw [nightDur]; ring
  refine ⟨rfl, ?_, ?_⟩
  · rw [assemble_nextHourTime]
    nlinarith
  · rw [assemble_nextHourTime]
    nlinarith

theorem night_after_sunset_spans_to_tomorrow_sunrise_witness :
    EngineRegular engine618 ∧ (engine618 (dayNumber 327600000)).2 ≤ 327600000 ∧
      ((Precise.calculatePlanetaryHour engine618 327600000).hourDuration
          = ((engine618 (dayNumber 327600000 + 1)).1 - (engine618 (dayNumber 327600000)).2) / 12 ∧
        (engine618 (dayNumber 327600000)).2
          < (Precise.calculatePlanetaryHour engine618 327600000).nextHourTime ∧
        (Precise.calculatePlanetaryHour engine618 327600000).nextHourTime
          ≤ (engine618 (dayNumber 327600000 + 1)).1) := by
  have h2 : (engine618 (dayNumber 327600000)).2 ≤ 327600000 := by
    norm_num [engine618, dayNumber, msPerDay]
  exact ⟨engine618_regular, h2,
    night_after_sunset_spans_to_tomorrow_sunrise engine618 327600000 engine618_regular h2⟩

/-- C4.  Strictly before the sunrise of the current day, the precise
resolver is in the night segment that began at the sunset of the previous
day (engine call for yesterday): the per-hour length is (today sunrise -
yesterday sunset)/12, the 12th hour of that segment ends exactly at the
sunrise of the current day, and the body is ruled by the weekday of
yesterday with the night offset +12. -/
theorem pre_sunrise_uses_yesterday_segment (E : ℤ → ℚ × ℚ) (now : ℚ)
    (hE : EngineRegular E) (h : now < (E (dayNumber now)).1) :
    (Precise.calculatePlanetaryHour E now).isDay = false ∧
      (Precise.calculatePlanetaryHour E now).hourDuration
        = ((E (dayNumber now)).1 - (E (dayNumber now - 1)).2) / 12 ∧
      (E (dayNumber now - 1)).2
          + 12 * (Precise.calculatePlanetaryHour E now).hourDuration
        = (E (dayNumber now)).1 ∧
      (planetIndex (Precise.calculatePlanetaryHour E now).currentPlanet : ℤ)
        = ((planetIndex (PLANET_ZI (jsGetDay (dayNumber now - 1))) : ℤ) + 12
            + ((Precise.calculatePlanetaryHour E now).hourNumber - 1)) % 7 := by
  have h2 : now < (E (dayNumber now)).2 := lt_trans h (hE (dayNumber now)).2.1
  rw [precise_eq_nightBefore E now h h2, nightBefore_eq_assemble]
  set d := dayNumber now with hd
  have hk0 : 0 ≤ nbIdx E d now := nbIdx_nonneg E hE d now (hd ▸ dayNumber_le now)
  refine ⟨rfl, rfl, ?_, ?_⟩
  · rw [assemble_hourDuration, nbDur]; ring
  · rw [assemble_hourNumber, assemble_current_index _ _ _ _ _ _ _ _ hk0]
    norm_num
    omega

theorem pre_sunrise_uses_yesterday_segment_witness :
    EngineRegular engine618 ∧ (266400000 : ℚ) < (engine618 (dayNumber 266400000)).1 ∧
      ((Precise.calculatePlanetaryHour engine618 266400000).isDay = false ∧
        (Precise.calculatePlanetaryHour engine618 266400000).hourDuration
          = ((engine618 (dayNumber 266400000)).1 - (engine618 (dayNumber 266400000 - 1)).2) / 12 ∧
        (engine618 (dayNumber 266400000 - 1)).2
            + 12 * (Precise.calculatePlanetaryHour engine618 266400000).hourDuration
          = (engine618 (dayNumber 266400000)).1 ∧
        (planetIndex (Precise.calculatePlanetaryHour engine618 266400000).currentPlanet : ℤ)
          = ((planetIndex (PLANET_ZI (jsGetDay (dayNumber 266400000 - 1))) : ℤ) + 12
              + ((Precise.calculatePlanetaryHour engine618 266400000).hourNumber - 1)) % 7) := by
  have h : (266400000 : ℚ) < (engine618 (dayNumber 266400000)).1 := by
    norm_num [engine618, dayNumber, msPerDay]
  exact ⟨engine618_regular, h,
    pre_sunrise_uses_yesterday_segment engine618 266400000 engine618_regular h⟩

/-- C5.  The hour ordinal of the precise resolver always lies in [1, 12]:
it is floor((now - segment start)/hour length) + 1 with the index clamped
from above at 11 and nonnegative in every segment. -/
theorem hour_number_in_range (E : ℤ → ℚ × ℚ) (now : ℚ) (hE : EngineRegular E) :
    1 ≤ (Precise.calculatePlanetaryHour E now).hourNumber ∧
      (Precise.calculatePlanetaryHour E now).hourNumber ≤ 12 := by
  by_cases hday : (E (dayNumber now)).1 ≤ now ∧ now < (E (dayNumber now)).2
  · rw [precise_eq_day E now hday.1 hday.2, daySegment_eq_assemble, assemble_hourNumber]
    have h0 := dayIdx_nonneg E (dayNumber now) now hday.1 (hE (dayNumber now)).2.1
    have h1 := dayIdx_le E (dayNumber now) now
    omega
  · by_cases hafter : (E (dayNumber now)).2 ≤ now
    · rw [precise_eq_nightAfter E now hafter, nightAfter_eq_assemble, assemble_hourNumber]
      have h0 := nightIdx_nonneg E hE (dayNumber now) now hafter
      have h1 := nightIdx_le E (dayNumber now) now
      omega
    · push_neg at hday hafter
      have hlt : now < (E (dayNumber now)).1 := by
        rcases le_or_lt (E (dayNumber now)).1 now with hle | hlt
        · exact absurd (hday hle) (not_le.2 hafter)
        · exact hlt
      rw [precise_eq_nightBefore E now hlt hafter, nightBefore_eq_assemble, assemble_hourNumber]
      have h0 := nbIdx_nonneg E hE (dayNumber now) now (dayNumber_le now)
      have h1 := nbIdx_le E (dayNumber now) now
      omega

theorem hour_number_in_range_witness :
    EngineRegular engine618 ∧
      (1 ≤ (Precise.calculatePlanetaryHour engine618 327600000).hourNumber ∧
        (Precise.calculatePlanetaryHour engine618 327600000).hourNumber ≤ 12) :=
  ⟨engine618_regular, hour_number_in_range engine618 327600000 engine618_regular⟩

/-- C3.  The sequence position of the current body equals
(startIndexForSegment + (hourOrdinal - 1) + nightOffset) mod 7, where the
start index is the position of the ruler of the governing weekday and the
night offset is 0 by day and 12 by night. -/
theorem body_index_follows_chaldean_formula (E : ℤ → ℚ × ℚ) (now : ℚ)
    (hE : EngineRegular E) :
    (planetIndex (Precise.calculatePlanetaryHour E now).currentPlanet : ℤ)
      = ((planetIndex (PLANET_ZI (governingWeekday E now)) : ℤ)
          + ((Precise.calculatePlanetaryHour E now).hourNumber - 1)
          + (if (Precise.calculatePlanetaryHour E now).isDay then 0 else 12)) % 7 := by
  by_cases hday : (E (dayNumber now)).1 ≤ now ∧ now < (E (dayNumber now)).2
  · rw [precise_eq_day E now hday.1 hday.2, daySegment_eq_assemble,
      governingWeekday_day E now hday.1 hday.2]
    have h0 := dayIdx_nonneg E (dayNumber now) now hday.1 (hE (dayNumber now)).2.1
    rw [assemble_hourNumber, assemble_isDay, assemble_current_index _ _ _ _ _ _ _ _ h0]
    norm_num
  · by_cases hafter : (E (dayNumber now)).2 ≤ now
    · rw [precise_eq_nightAfter E now hafter, nightAfter_eq_assemble,
        governingWeekday_after E now hafter]
      have h0 := nightIdx_nonneg E hE (dayNumber now) now hafter
      rw [assemble_hourNumber, assemble_isDay, assemble_current_index _ _ _ _ _ _ _ _ h0]
      norm_num
    · push_neg at hday hafter
      have hlt : now < (E (dayNumber now)).1 := by
        rcases le_or_lt (E (dayNumber now)).1 now with hle | hlt
        · exact absurd (hday hle) (not_le.2 hafter)
        · exact hlt
      rw [precise_eq_nightBefore E now hlt hafter, nightBefore_eq_assemble,
        governingWeekday_before E now hlt hafter]
      have h0 := nbIdx_nonneg E hE (dayNumber now) now (dayNumber_le now)
      rw [assemble_hourNumber, assemble_isDay, assemble_current_index _ _ _ _ _ _ _ _ h0]
      norm_num

theorem body_index_follows_chaldean_formula_witness :
    EngineRegular engine618 ∧
      (planetIndex (Precise.calculatePlanetaryHour engine618 327600000).currentPlanet : ℤ)
        = ((planetIndex (PLANET_ZI (governingWeekday engine618 327600000)) : ℤ)
            + ((Precise.calculatePlanetaryHour engine618 327600000).hourNumber - 1)
            + (if (Precise.calculatePlanetaryHour engine618 327600000).isDay then 0 else 12)) % 7 :=
  ⟨engine618_regular, body_index_follows_chaldean_formula engine618 327600000 engine618_regular⟩

/-- C6.  The next body is always the cyclic successor of the current body
in the Chaldean sequence: sequence[(bodyIndex + 1) mod 7]. -/
theorem next_body_is_cyclic_successor (E : ℤ → ℚ × ℚ) (now : ℚ) (hE : EngineRegular E) :
    (Precise.calculatePlanetaryHour E now).nextPlanet
      = seqAt ((planetIndex (Precise.calculatePlanetaryHour E now).currentPlanet + 1) % 7) := by
  by_cases hday : (E (dayNumber now)).1 ≤ now ∧ now < (E (dayNumber now)).2
  · rw [precise_eq_day E now hday.1 hday.2, daySegment_eq_assemble]
    exact assemble_next_eq_succ _ _ _ _ _ _ _ _
      (dayIdx_nonneg E (dayNumber now) now hday.1 (hE (dayNumber now)).2.1)
  · by_cases hafter : (E (dayNumber now)).2 ≤ now
    · rw [precise_eq_nightAfter E now hafter, nightAfter_eq_assemble]
      exact assemble_next_eq_succ _ _ _ _ _ _ _ _
        (nightIdx_nonneg E hE (dayNumber now) now hafter)
    · push_neg at hday hafter
      have hlt : now < (E (dayNumber now)).1 := by
        rcases le_or_lt (E (dayNumber now)).1 now with hle | hlt
        · exact absurd (hday hle) (not_le.2 hafter)
        · exact hlt
      rw [precise_eq_nightBefore E now hlt hafter, nightBefore_eq_assemble]
      exact assemble_next_eq_succ _ _ _ _ _ _ _ _
        (nbIdx_nonneg E hE (dayNumber now) now (dayNumber_le now))

theorem next_body_is_cyclic_successor_witness :
    EngineRegular engine618 ∧
      (Precise.calculatePlanetaryHour engine618 327600000).nextPlanet
        = seqAt ((planetIndex
            (Precise.calculatePlanetaryHour engine618 327600000).currentPlanet + 1) % 7) :=
  ⟨engine618_regular, next_body_is_cyclic_successor engine618 327600000 engine618_regular⟩

/-- C9.  The resolver result is a function of the engine (hence of the
coordinate) and the queried instant alone: two invocations with the same
engine and instant return identical results in every field. -/
theorem resolver_deterministic (E1 E2 : ℤ → ℚ × ℚ) (t1 t2 : ℚ)
    (hE : E1 = E2) (ht : t1 = t2) :
    Precise.calculatePlanetaryHour E1 t1 = Precise.calculatePlanetaryHour E2 t2 := by
  rw [hE, ht]

theorem resolver_deterministic_witness :
    Precise.calculatePlanetaryHour engine618 327600000
      = Precise.calculatePlanetaryHour engine618 327600000 :=
  resolver_deterministic engine618 engine618 327600000 327600000 rfl rfl

/-- C10.  The day-ruler table follows the 24-hour Chaldean rotation: the
ruler of the next weekday sits 24 positions (3 mod 7) further along the
sequence than the ruler of the previous weekday. -/
theorem day_rulers_follow_24_hour_rotation :
    ∀ w : Fin 7,
      PLANETARY_SEQUENCE.indexOf (DAY_RULERS (((w : ℤ) + 1) % 7))
        = (PLANETARY_SEQUENCE.indexOf (DAY_RULERS (w : ℤ)) + 24) % 7 := by
  decide

/-! Solar Position Engine: the clamp question (C2). -/

/-- At latitude 85 with a winter solar declination of -23 degrees and the
standard zenith 90.833, the arccosine argument of getHourAngleSunrise
exceeds 1: the inequality reduces to cos(90.833 deg) > cos(108 deg),
which holds because cos is strictly decreasing on [0, pi]. -/
theorem polar_arg_gt_one :
    1 < Real.cos (90.833 * Real.pi / 180) /
          (Real.cos (85 * Real.pi / 180) * Real.cos (23 * Real.pi / 180))
        + Real.tan (85 * Real.pi / 180) * Real.tan (23 * Real.pi / 180) := by
  have hpi := Real.pi_pos
  set a : ℝ := 85 * Real.pi / 180 with ha
  set b : ℝ := 23 * Real.pi / 180 with hb
  set z : ℝ := 90.833 * Real.pi / 180 with hz
  have ha_pos : 0 < a := by positivity
  have hb_pos : 0 < b := by positivity
  have ha_lt : a < Real.pi / 2 := by rw [ha]; linarith
  have hb_lt : b < Real.pi / 2 := by rw [hb]; linarith
  have hca : 0 < Real.cos a := Real.cos_pos_of_mem_Ioo ⟨by linarith, ha_lt⟩
  have hcb : 0 < Real.cos b := Real.cos_pos_of_mem_Ioo ⟨by linarith, hb_lt⟩
  have hzmem : z ∈ Set.Icc (0 : ℝ) Real.pi := by
    constructor
    · rw [hz]; positivity
    · rw [hz]; nlinarith
  have habmem : a + b ∈ Set.Icc (0 : ℝ) Real.pi := by
    constructor
    · positivity
    · rw [ha, hb]; nlinarith
  have hzlt : z < a + b := by rw [hz, ha, hb]; nlinarith
  have hkey : Real.cos (a + b) < Real.cos z := Real.strictAntiOn_cos hzmem habmem hzlt
  rw [Real.cos_add] at hkey
  have hsum : Real.cos z + Real.sin a * Real.sin b > Real.cos a * Real.cos b := by linarith
  have heq : Real.cos z / (Real.cos a * Real.cos b) + Real.tan a * Real.tan b
      = (Real.cos z + Real.sin a * Real.sin b) / (Real.cos a * Real.cos b) := by
    rw [Real.tan_eq_sin_div_cos, Real.tan_eq_sin_div_cos]
    field_simp
  rw [heq]
  exact (one_lt_div (mul_pos hca hcb)).2 hsum

/-- C2 evidence.  The NOAA revision passes an unclamped argument to
Math.acos: at latitude 85 with winter declination -23 the hour angle is
NaN (none), so the sunrise and sunset computed from it are invalid
instants.  The try/catch fallback of the source never fires because JS
Math.acos returns NaN instead of throwing. -/
theorem noaa_hour_angle_polar_is_nan :
    Precise.getHourAngleSunrise 85 (-23) 90.833 = none := by
  have hneg : toRadians (-23) = -(23 * Real.pi / 180) := by rw [toRadians]; ring
  have h85 : toRadians 85 = 85 * Real.pi / 180 := rfl
  have hz : toRadians 90.833 = 90.833 * Real.pi / 180 := rfl
  simp only [Precise.getHourAngleSunrise, h85, hz, hneg, Real.cos_neg, Real.tan_neg,
    mul_neg, sub_neg_eq_add]
  rw [acosJS, if_neg]
  · rfl
  · push_neg
    intro _
    linarith [polar_arg_gt_one]

/-- The coarse revision does clamp the arccosine argument to [-1, 1], so
its sun-time computation always yields a value for every day of year,
latitude, longitude and UTC offset. -/
theorem coarse_sun_times_total (dayOfYear : ℤ) (lat lon tz : ℝ) :
    (Coarse.calculateSunTimes dayOfYear lat lon tz).isSome = true := by
  simp only [Coarse.calculateSunTimes]
  rw [acosJS, if_pos]
  · rfl
  · constructor
    · exact le_max_left _ _
    · exact max_le (by norm_num) (min_le_left _ _)

/-! C8: the day-boundary scenario, with the 6:00/18:00 engine on a Sunday
(calendar day 3 of the embedding, whose weekday is 0). -/

/-- C8 counterexample.  At exactly 07:00 the first hour (which spans
06:00 to 07:00) is already over: the resolver reports hour 2 ruled by
Venus, not hour 1 ruled by the Sun; and at 17:59 the 12th day hour is
ruled by Saturn (12th in rotation from the Sun), not by the Moon. -/
theorem day_boundary_scenario_counterexample :
    jsGetDay 3 = 0 ∧ DAY_RULERS 0 = Planet.sun ∧
      (Coarse.calculatePlanetaryHour engine618 284400000).hourNumber = 2 ∧
      (Coarse.calculatePlanetaryHour engine618 284400000).currentPlanet = Planet.venus ∧
      (Coarse.calculatePlanetaryHour engine618 323940000).hourNumber = 12 ∧
      (Coarse.calculatePlanetaryHour engine618 323940000).currentPlanet = Planet.saturn ∧
      Planet.venus ≠ Planet.sun ∧ Planet.saturn ≠ Planet.moon := by
  refine ⟨by decide, by decide, ?_, ?_, ?_, ?_, by decide, by decide⟩ <;>
    · norm_num [Coarse.calculatePlanetaryHour, engine618, dayNumber, msPerDay, jsGetDay,
        DAY_RULERS, PLANETARY_SEQUENCE, seqAt, List.indexOf, Int.tmod]
      try decide

/-- C8 amended.  Inside the first hour (for instance at 06:30) the body is
the Sun with ordinal 1, and at 17:59 the ordinal is 12 with body Saturn. -/
theorem day_boundary_scenario_amended :
    (Coarse.calculatePlanetaryHour engine618 282600000).hourNumber = 1 ∧
      (Coarse.calculatePlanetaryHour engine618 282600000).currentPlanet = Planet.sun ∧
      (Coarse.calculatePlanetaryHour engine618 323940000).hourNumber = 12 ∧
      (Coarse.calculatePlanetaryHour engine618 323940000).currentPlanet = Planet.saturn := by
  refine ⟨?_, ?_, ?_, ?_⟩ <;>
    · norm_num [Coarse.calculatePlanetaryHour, engine618, dayNumber, msPerDay, jsGetDay,
        DAY_RULERS, PLANETARY_SEQUENCE, seqAt, List.indexOf, Int.tmod]
      try decide

/-- C7 counterexample.  With the engine whose day length changes between
day 3 (sunset 18:00) and day 4 (sunset 20:00), the coarse resolver at
23:30 of day 3 is in night hour 6 with next transition at midnight and
next body Saturn; one minute after that transition, on day 4, it
recomputes the night-hour length from the sun times of day 4 and reports
night hour 8 ruled by Jupiter, so continuity fails. -/
theorem coarse_continuity_counterexample :
    (Coarse.calculatePlanetaryHour engineVarying 343800000).hourNumber = 6 ∧
      (Coarse.calculatePlanetaryHour engineVarying 343800000).nextHourTime = 345600000 ∧
      (Coarse.calculatePlanetaryHour engineVarying 343800000).nextPlanet = Planet.saturn ∧
      (Coarse.calculatePlanetaryHour engineVarying 345660000).hourNumber = 8 ∧
      (Coarse.calculatePlanetaryHour engineVarying 345660000).currentPlanet = Planet.jupiter ∧
      Planet.jupiter ≠ Planet.saturn := by
  refine ⟨?_, ?_, ?_, ?_, ?_, by decide⟩ <;>
    · norm_num [Coarse.calculatePlanetaryHour, engineVarying, dayNumber, msPerDay, jsGetDay,
        DAY_RULERS, PLANETARY_SEQUENCE, seqAt, List.indexOf, Int.tmod]
      try decide

/-! Continuity of the precise resolver across hour and segment boundaries. -/

theorem precise_eq_day_at (E : ℤ → ℚ × ℚ) (now : ℚ) (d : ℤ) (hd : dayNumber now = d)
    (h1 : (E d).1 ≤ now) (h2 : now < (E d).2) :
    Precise.calculatePlanetaryHour E now = Precise.daySegmentCalc E d now := by
  subst hd
  exact precise_eq_day E now h1 h2

theorem nbDur_eq_nightDur (E : ℤ → ℚ × ℚ) (d : ℤ) : nbDur E d = nightDur E (d - 1) := by
  rw [nbDur, nightDur, sub_add_cancel]

theorem nbIdx_eq_nightIdx (E : ℤ → ℚ × ℚ) (d : ℤ) (now : ℚ) :
    nbIdx E d now = nightIdx E (d - 1) now := by
  rw [nbIdx, nightIdx, nbDur_eq_nightDur]

/-- Rotation step of the ruler table: the ruler of the next weekday sits
24 positions further along the sequence (mod 7). -/
theorem ruler_step (d : ℤ) :
    (planetIndex (PLANET_ZI (jsGetDay (d + 1))) : ℤ) % 7
      = ((planetIndex (PLANET_ZI (jsGetDay d)) : ℤ) + 24) % 7 := by
  have h : jsGetDay (d + 1) = (jsGetDay d + 1) % 7 := by
    rw [jsGetDay, jsGetDay]
    omega
  have hw : jsGetDay d = 0 ∨ jsGetDay d = 1 ∨ jsGetDay d = 2 ∨ jsGetDay d = 3 ∨
      jsGetDay d = 4 ∨ jsGetDay d = 5 ∨ jsGetDay d = 6 := by
    rw [jsGetDay]
    omega
  rcases hw with h0 | h0 | h0 | h0 | h0 | h0 | h0 <;> rw [h, h0] <;> decide

/-- During the day segment of day d, the instant in the grid cell k+1
(counting from -1 for the cell that starts at sunrise) yields the body
(ruler index + (k+1)) mod 7 with ordinal k+2. -/
theorem day_hour_at (E : ℤ → ℚ × ℚ) (hE : EngineRegular E) (d : ℤ) (t2 : ℚ) (k : ℤ)
    (hk0 : -1 ≤ k) (hk10 : k ≤ 10)
    (ha : (E d).1 + dayDur E d * ((k : ℚ) + 1) ≤ t2)
    (hb : t2 < (E d).1 + dayDur E d * ((k : ℚ) + 2)) :
    (planetIndex (Precise.calculatePlanetaryHour E t2).currentPlanet : ℤ)
        = ((planetIndex (PLANET_ZI (jsGetDay d)) : ℤ) + (k + 1)) % 7 ∧
      (Precise.calculatePlanetaryHour E t2).hourNumber = k + 2 := by
  have hδ := dayDur_pos E d (hE d).2.1
  have hcast : (0 : ℚ) ≤ (k : ℚ) + 1 := by
    have : (0 : ℤ) ≤ k + 1 := by omega
    exact_mod_cast this
  have hmul : dayDur E d * 12 = (E d).2 - (E d).1 := by rw [dayDur]; ring
  have hc1 : (E d).1 ≤ t2 := by nlinarith
  have hc2 : t2 < (E d).2 := by
    have hle : (k : ℚ) + 2 ≤ 12 := by
      have : (k : ℤ) + 2 ≤ 12 := by omega
      exact_mod_cast this
    nlinarith
  have hd2 : dayNumber t2 = d :=
    dayNumber_eq t2 d (by have := (hE d).1; linarith) (by have := (hE d).2.2; linarith)
  rw [precise_eq_day_at E t2 d hd2 hc1 hc2, daySegment_eq_assemble]
  have hidx : dayIdx E d t2 = k + 1 := by
    rw [dayIdx, floor_grid (E d).1 t2 (dayDur E d) k hδ ha hb]
    exact min_eq_left (by omega)
  rw [hidx]
  constructor
  · rw [assemble_current_index _ _ _ _ _ _ _ _ (by omega)]
    norm_num
  · rw [assemble_hourNumber]
    omega

/-- During the night segment from the sunset of day e to the sunrise of
day e+1, the instant in the grid cell k+1 yields the body
(ruler index of day e + (k+1) + 12) mod 7 with ordinal k+2. -/
theorem night_hour_at (E : ℤ → ℚ × ℚ) (hE : EngineRegular E) (e : ℤ) (t2 : ℚ) (k : ℤ)
    (hk0 : -1 ≤ k) (hk10 : k ≤ 10)
    (ha : (E e).2 + nightDur E e * ((k : ℚ) + 1) ≤ t2)
    (hb : t2 < (E e).2 + nightDur E e * ((k : ℚ) + 2)) :
    (planetIndex (Precise.calculatePlanetaryHour E t2).currentPlanet : ℤ)
        = ((planetIndex (PLANET_ZI (jsGetDay e)) : ℤ) + (k + 1) + 12) % 7 ∧
      (Precise.calculatePlanetaryHour E t2).hourNumber = k + 2 := by
  have hν := nightDur_pos E hE e
  have hcast : (0 : ℚ) ≤ (k : ℚ) + 1 := by
    have : (0 : ℤ) ≤ k + 1 := by omega
    exact_mod_cast this
  have hmul : nightDur E e * 12 = (E (e + 1)).1 - (E e).2 := by rw [nightDur]; ring
  have hc1 : (E e).2 ≤ t2 := by nlinarith
  have hc2 : t2 < (E (e + 1)).1 := by
    have hle : (k : ℚ) + 2 ≤ 12 := by
      have : (k : ℤ) + 2 ≤ 12 := by omega
      exact_mod_cast this
    nlinarith
  rw [precise_night_unified E hE e t2 hc1 hc2]
  have hidx : nightIdx E e t2 = k + 1 := by
    rw [nightIdx, floor_grid (E e).2 t2 (nightDur E e) k hν ha hb]
    exact min_eq_left (by omega)
  rw [hidx]
  constructor
  · rw [assemble_current_index _ _ _ _ _ _ _ _ (by omega)]
    norm_num
  · rw [assemble_hourNumber]
    omega

/-- First hour of the day segment of day d. -/
theorem day_first_hour (E : ℤ → ℚ × ℚ) (hE : EngineRegular E) (d : ℤ) (t2 : ℚ)
    (ha : (E d).1 ≤ t2) (hb : t2 < (E d).1 + dayDur E d) :
    (planetIndex (Precise.calculatePlanetaryHour E t2).currentPlanet : ℤ)
        = (planetIndex (PLANET_ZI (jsGetDay d)) : ℤ) % 7 ∧
      (Precise.calculatePlanetaryHour E t2).hourNumber = 1 := by
  obtain ⟨hc, hn⟩ := day_hour_at E hE d t2 (-1) (by omega) (by omega)
    (by push_cast; norm_num; linarith) (by push_cast; norm_num; linarith)
  exact ⟨by omega, by omega⟩

/-- First hour of the night segment that starts at the sunset of day e. -/
theorem night_first_hour (E : ℤ → ℚ × ℚ) (hE : EngineRegular E) (e : ℤ) (t2 : ℚ)
    (ha : (E e).2 ≤ t2) (hb : t2 < (E e).2 + nightDur E e) :
    (planetIndex (Precise.calculatePlanetaryHour E t2).currentPlanet : ℤ)
        = ((planetIndex (PLANET_ZI (jsGetDay e)) : ℤ) + 12) % 7 ∧
      (Precise.calculatePlanetaryHour E t2).hourNumber = 1 := by
  obtain ⟨hc, hn⟩ := night_hour_at E hE e t2 (-1) (by omega) (by omega)
    (by push_cast; norm_num; linarith) (by push_cast; norm_num; linarith)
  exact ⟨by omega, by omega⟩

/-! Reduction of followingHourLength in each region. -/

theorem followLen_day (E : ℤ → ℚ × ℚ) (now : ℚ)
    (h1 : (E (dayNumber now)).1 ≤ now) (h2 : now < (E (dayNumber now)).2) :
    followingHourLength E now
      = if dayIdx E (dayNumber now) now ≤ 10 then dayDur E (dayNumber now)
        else nightDur E (dayNumber now) := by
  rw [followingHourLength, if_pos ⟨h1, h2⟩]

theorem followLen_after (E : ℤ → ℚ × ℚ) (now : ℚ) (h : (E (dayNumber now)).2 ≤ now) :
    followingHourLength E now
      = if nightIdx E (dayNumber now) now ≤ 10 then nightDur E (dayNumber now)
        else dayDur E (dayNumber now + 1) := by
  rw [followingHourLength]
  rw [if_neg (by push_neg; intro _; linarith), if_pos h]

theorem followLen_before (E : ℤ → ℚ × ℚ) (now : ℚ)
    (h1 : now < (E (dayNumber now)).1) (h2 : now < (E (dayNumber now)).2) :
    followingHourLength E now
      = if nightIdx E (dayNumber now - 1) now ≤ 10 then nightDur E (dayNumber now - 1)
        else dayDur E (dayNumber now) := by
  rw [followingHourLength]
  rw [if_neg (by push_neg; intro h; linarith), if_neg (by linarith)]

/-- C7 amended.  Continuity of the precise resolver: for every regular
engine, recomputing at any instant from the next transition of a result
up to the end of the immediately following planetary hour yields that
result's nextPlanet as the current body, and ordinal 1 whenever the
previous result was the 12th hour of its segment. -/
theorem precise_resolver_continuity (E : ℤ → ℚ × ℚ) (now t2 : ℚ) (hE : EngineRegular E)
    (h1 : (Precise.calculatePlanetaryHour E now).nextHourTime ≤ t2)
    (h2 : t2 < (Precise.calculatePlanetaryHour E now).nextHourTime
            + followingHourLength E now) :
    (Precise.calculatePlanetaryHour E t2).currentPlanet
        = (Precise.calculatePlanetaryHour E now).nextPlanet ∧
      ((Precise.calculatePlanetaryHour E now).hourNumber = 12 →
        (Precise.calculatePlanetaryHour E t2).hourNumber = 1) := by
  by_cases hday : (E (dayNumber now)).1 ≤ now ∧ now < (E (dayNumber now)).2
  · -- day segment of the current day
    rw [precise_eq_day E now hday.1 hday.2, daySegment_eq_assemble] at h1 h2 ⊢
    rw [followLen_day E now hday.1 hday.2] at h2
    rw [assemble_nextHourTime] at h1 h2
    have hk0 : 0 ≤ dayIdx E (dayNumber now) now :=
      dayIdx_nonneg E (dayNumber now) now hday.1 (hE (dayNumber now)).2.1
    have hk11 : dayIdx E (dayNumber now) now ≤ 11 := dayIdx_le E (dayNumber now) now
    have hδ := dayDur_pos E (dayNumber now) (hE (dayNumber now)).2.1
    have hmul : dayDur E (dayNumber now) * 12 = (E (dayNumber now)).2 - (E (dayNumber now)).1 := by
      rw [dayDur]; ring
    have hnext := assemble_next_index (E (dayNumber now)).1 (E (dayNumber now)).2
      (dayDur E (dayNumber now)) (dayIdx E (dayNumber now) now)
      ((E (dayNumber now)).1 + dayDur E (dayNumber now) * ((dayIdx E (dayNumber now) now : ℚ) + 1))
      (jsGetDay (dayNumber now)) true now hk0
    norm_num at hnext
    by_cases hk10 : dayIdx E (dayNumber now) now ≤ 10
    · rw [if_pos hk10] at h2
      obtain ⟨hcur, hnum⟩ := day_hour_at E hE (dayNumber now) t2 (dayIdx E (dayNumber now) now)
        (by omega) hk10 h1 (by linarith)
      refine ⟨planetIndex_inj _ _ (by omega), fun h12 => ?_⟩
      rw [assemble_hourNumber] at h12
      omega
    · have hk : dayIdx E (dayNumber now) now = 11 := by omega
      rw [if_neg hk10] at h2
      have hprox : (E (dayNumber now)).1
          + dayDur E (dayNumber now) * ((dayIdx E (dayNumber now) now : ℚ) + 1)
          = (E (dayNumber now)).2 := by
        rw [hk]; push_cast; linarith
      rw [hprox] at h1 h2
      obtain ⟨hcur, hnum⟩ := night_first_hour E hE (dayNumber now) t2 h1 (by linarith)
      refine ⟨planetIndex_inj _ _ (by omega), fun _ => hnum⟩
  · by_cases hafter : (E (dayNumber now)).2 ≤ now
    · -- night segment after the sunset of the current day
      rw [precise_eq_nightAfter E now hafter, nightAfter_eq_assemble] at h1 h2 ⊢
      rw [followLen_after E now hafter] at h2
      rw [assemble_nextHourTime] at h1 h2
      have hk0 : 0 ≤ nightIdx E (dayNumber now) now :=
        nightIdx_nonneg E hE (dayNumber now) now hafter
      have hk11 : nightIdx E (dayNumber now) now ≤ 11 := nightIdx_le E (dayNumber now) now
      have hν := nightDur_pos E hE (dayNumber now)
      have hmul : nightDur E (dayNumber now) * 12
          = (E (dayNumber now + 1)).1 - (E (dayNumber now)).2 := by
        rw [nightDur]; ring
      have hnext := assemble_next_index (E (dayNumber now)).1 (E (dayNumber now)).2
        (nightDur E (dayNumber now)) (nightIdx E (dayNumber now) now)
        ((E (dayNumber now)).2
          + nightDur E (dayNumber now) * ((nightIdx E (dayNumber now) now : ℚ) + 1))
        (jsGetDay (dayNumber now)) false now hk0
      norm_num at hnext
      by_cases hk10 : nightIdx E (dayNumber now) now ≤ 10
      · rw [if_pos hk10] at h2
        obtain ⟨hcur, hnum⟩ := night_hour_at E hE (dayNumber now) t2
          (nightIdx E (dayNumber now) now) (by omega) hk10 h1 (by linarith)
        refine ⟨planetIndex_inj _ _ (by omega), fun h12 => ?_⟩
        rw [assemble_hourNumber] at h12
        omega
      · have hk : nightIdx E (dayNumber now) now = 11 := by omega
        rw [if_neg hk10] at h2
        have hprox : (E (dayNumber now)).2
            + nightDur E (dayNumber now) * ((nightIdx E (dayNumber now) now : ℚ) + 1)
            = (E (dayNumber now + 1)).1 := by
          rw [hk]; push_cast; linarith
        rw [hprox] at h1 h2
        obtain ⟨hcur, hnum⟩ := day_first_hour E hE (dayNumber now + 1) t2 h1 (by linarith)
        have hrs := ruler_step (dayNumber now)
        refine ⟨planetIndex_inj _ _ (by omega), fun _ => hnum⟩
    · -- night segment that began at the sunset of yesterday
      push_neg at hday hafter
      have hlt : now < (E (dayNumber now)).1 := by
        rcases le_or_lt (E (dayNumber now)).1 now with hle | hltx
        · exact absurd (hday hle) (not_le.2 hafter)
        · exact hltx
      rw [precise_eq_nightBefore E now hlt hafter, nightBefore_eq_assemble,
        nbDur_eq_nightDur, nbIdx_eq_nightIdx] at h1 h2 ⊢
      rw [followLen_before E now hlt hafter] at h2
      rw [assemble_nextHourTime] at h1 h2
      have hk0 : 0 ≤ nightIdx E (dayNumber now - 1) now := by
        rw [← nbIdx_eq_nightIdx]
        exact nbIdx_nonneg E hE (dayNumber now) now (dayNumber_le now)
      have hk11 : nightIdx E (dayNumber now - 1) now ≤ 11 :=
        nightIdx_le E (dayNumber now - 1) now
      have hν := nightDur_pos E hE (dayNumber now - 1)
      have hmul : nightDur E (dayNumber now - 1) * 12
          = (E (dayNumber now - 1 + 1)).1 - (E (dayNumber now - 1)).2 := by
        rw [nightDur]; ring
      rw [sub_add_cancel] at hmul
      have hnext := assemble_next_index (E (dayNumber now)).1 (E (dayNumber now)).2
        (nightDur E (dayNumber now - 1)) (nightIdx E (dayNumber now - 1) now)
        ((E (dayNumber now - 1)).2
          + nightDur E (dayNumber now - 1) * ((nightIdx E (dayNumber now - 1) now : ℚ) + 1))
        (jsGetDay (dayNumber now - 1)) false now hk0
      norm_num at hnext
      by_cases hk10 : nightIdx E (dayNumber now - 1) now ≤ 10
      · rw [if_pos hk10] at h2
        obtain ⟨hcur, hnum⟩ := night_hour_at E hE (dayNumber now - 1) t2
          (nightIdx E (dayNumber now - 1) now) (by omega) hk10 h1 (by linarith)
        refine ⟨planetIndex_inj _ _ (by omega), fun h12 => ?_⟩
        rw [assemble_hourNumber] at h12
        omega
      · have hk : nightIdx E (dayNumber now - 1) now = 11 := by omega
        rw [if_neg hk10] at h2
        have hprox : (E (dayNumber now - 1)).2
            + nightDur E (dayNumber now - 1) * ((nightIdx E (dayNumber now - 1) now : ℚ) + 1)
            = (E (dayNumber now)).1 := by
          rw [hk]; push_cast; linarith
        rw [hprox] at h1 h2
        obtain ⟨hcur, hnum⟩ := day_first_hour E hE (dayNumber now) t2 h1 (by linarith)
        have hrs := ruler_step (dayNumber now - 1)
        rw [sub_add_cancel] at hrs
        refine ⟨planetIndex_inj _ _ (by omega), fun _ => hnum⟩

theorem precise_resolver_continuity_witness :
    EngineRegular engine618 ∧
      (Precise.calculatePlanetaryHour engine618 327600000).nextHourTime ≤ 331200000 ∧
      (331200000 : ℚ) < (Precise.calculatePlanetaryHour engine618 327600000).nextHourTime
          + followingHourLength engine618 327600000 ∧
      ((Precise.calculatePlanetaryHour engine618 331200000).currentPlanet
          = (Precise.calculatePlanetaryHour engine618 327600000).nextPlanet ∧
        ((Precise.calculatePlanetaryHour engine618 327600000).hourNumber = 12 →
          (Precise.calculatePlanetaryHour engine618 331200000).hourNumber = 1)) := by
  have h1 : (Precise.calculatePlanetaryHour engine618 327600000).nextHourTime
      ≤ 331200000 := by
    norm_num [Precise.calculatePlanetaryHour, Precise.daySegmentCalc, Precise.nightAfterCalc,
      Precise.nightBeforeCalc, Precise.assemble, engine618, dayNumber, msPerDay, jsGetDay,
      PLANET_ZI, DAY_RULERS, PLANETARY_SEQUENCE, seqAt, List.indexOf, Int.tmod]
  have h2 : (331200000 : ℚ) < (Precise.calculatePlanetaryHour engine618 327600000).nextHourTime
      + followingHourLength engine618 327600000 := by
    norm_num [Precise.calculatePlanetaryHour, Precise.daySegmentCalc, Precise.nightAfterCalc,
      Precise.nightBeforeCalc, Precise.assemble, followingHourLength, nightIdx, nightDur,
      dayIdx, dayDur, engine618, dayNumber, msPerDay, jsGetDay,
      PLANET_ZI, DAY_RULERS, PLANETARY_SEQUENCE, seqAt, List.indexOf, Int.tmod]
  exact ⟨engine618_regular, h1, h2,
    precise_resolver_continuity engine618 327600000 331200000 engine618_regular h1 h2⟩

end PlanetaryHours
